import Mathlib

set_option maxRecDepth 100000

/-!
Verification of the directory-fingerprinting tool
(`scripts/fingerprint_generator.py`).

The development shallowly embeds the script: byte contents are `List Nat`
(each element a byte value), the filesystem snapshot is an inductive tree
that records the raw iteration order the OS would report, `hashlib` is
modelled by executable SHA-256 / SHA-1 implementations, and
`generate_fingerprint` is a Lean function mirroring the Python control
flow (walk, per-directory sort, exclusion check, per-file try/except,
combined digest, artifact writing).
-/

/-! ## Bytes, hex, UTF-8 -/

/-- Big-endian byte rendering of a value in `w` bytes (most significant first). -/
def beBytes : Nat → Nat → List Nat
  | 0, _ => []
  | w + 1, v => beBytes w (v / 256) ++ [v % 256]

/-- Big-endian interpretation of a byte list as a number. -/
def beToNat (bs : List Nat) : Nat :=
  bs.foldl (fun acc b => acc * 256 + b) 0

/-- Lowercase hexadecimal digit characters. -/
def hexChars : List Char := "0123456789abcdef".data

/-- The `n`-th lowercase hex digit (only meaningful for `n < 16`). -/
def hexChar (n : Nat) : Char := hexChars.getD n 'x'

/-- Lowercase hex rendering of a byte list, two digits per byte
(`bytes.hex()` / `hexdigest` rendering). -/
def bytesToHex (bs : List Nat) : String :=
  String.mk (bs.flatMap (fun b => [hexChar (b / 16), hexChar (b % 16)]))

/-- UTF-8 encoding of a single character (scalar value), as byte values. -/
def utf8Char (c : Char) : List Nat :=
  let n := c.toNat
  if n < 128 then [n]
  else if n < 2048 then
    [192 + n / 64, 128 + n % 64]
  else if n < 65536 then
    [224 + n / 4096, 128 + (n / 64) % 64, 128 + n % 64]
  else
    [240 + n / 262144, 128 + (n / 4096) % 64, 128 + (n / 64) % 64, 128 + n % 64]

/-- UTF-8 encoding of a string (Python's `str.encode()`), as byte values. -/
def strBytes (s : String) : List Nat := s.data.flatMap utf8Char

/-! ## SHA-256 (the `hashlib` model for algorithm `"sha256"`) -/

namespace Sha256

/-- 32-bit right rotation. -/
def rotr (n x : Nat) : Nat :=
  ((x >>> n) ||| (x <<< (32 - n))) % 4294967296

/-- 32-bit complement. -/
def compl32 (x : Nat) : Nat := x ^^^ 4294967295

/-- SHA-256 round constants (FIPS 180-4, in decimal). -/
def K : List Nat :=
  [1116352408, 1899447441, 3049323471, 3921009573, 961987163, 1508970993,
   2453635748, 2870763221, 3624381080, 310598401, 607225278, 1426881987,
   1925078388, 2162078206, 2614888103, 3248222580, 3835390401, 4022224774,
   264347078, 604807628, 770255983, 1249150122, 1555081692, 1996064986,
   2554220882, 2821834349, 2952996808, 3210313671, 3336571891, 3584528711,
   113926993, 338241895, 666307205, 773529912, 1294757372, 1396182291,
   1695183700, 1986661051, 2177026350, 2456956037, 2730485921, 2820302411,
   3259730800, 3345764771, 3516065817, 3600352804, 4094571909, 275423344,
   430227734, 506948616, 659060556, 883997877, 958139571, 1322822218,
   1537002063, 1747873779, 1955562222, 2024104815, 2227730452, 2361852424,
   2428436474, 2756734187, 3204031479, 3329325298]

/-- Working state: eight 32-bit words. -/
structure St where
  a : Nat
  b : Nat
  c : Nat
  d : Nat
  e : Nat
  f : Nat
  g : Nat
  h : Nat
deriving Repr, DecidableEq

/-- Initial hash value (FIPS 180-4, in decimal). -/
def H0 : St :=
  ⟨1779033703, 3144134277, 1013904242, 2773480762,
   1359893119, 2600822924, 528734635, 1541459225⟩

def sig0 (x : Nat) : Nat := rotr 7 x ^^^ rotr 18 x ^^^ (x >>> 3)

def sig1 (x : Nat) : Nat := rotr 17 x ^^^ rotr 19 x ^^^ (x >>> 10)

/-- One message-schedule extension step: append `w[i]` for `i = w.length`. -/
def extendStep (w : List Nat) : List Nat :=
  let i := w.length
  w ++ [(sig1 (w.getD (i - 2) 0) + w.getD (i - 7) 0 +
         sig0 (w.getD (i - 15) 0) + w.getD (i - 16) 0) % 4294967296]

/-- Full 64-word message schedule from the 16 block words. -/
def schedule (w16 : List Nat) : List Nat :=
  Nat.repeat extendStep 48 w16

/-- One compression round with schedule word and constant `wk`. -/
def roundStep (st : St) (wk : Nat × Nat) : St :=
  let S1 := rotr 6 st.e ^^^ rotr 11 st.e ^^^ rotr 25 st.e
  let ch := (st.e &&& st.f) ^^^ (compl32 st.e &&& st.g)
  let temp1 := (st.h + S1 + ch + wk.2 + wk.1) % 4294967296
  let S0 := rotr 2 st.a ^^^ rotr 13 st.a ^^^ rotr 22 st.a
  let maj := (st.a &&& st.b) ^^^ (st.a &&& st.c) ^^^ (st.b &&& st.c)
  let temp2 := (S0 + maj) % 4294967296
  ⟨(temp1 + temp2) % 4294967296, st.a, st.b, st.c,
   (st.d + temp1) % 4294967296, st.e, st.f, st.g⟩

/-- Add two states word-wise mod 2^32. -/
def addSt (x y : St) : St :=
  ⟨(x.a + y.a) % 4294967296, (x.b + y.b) % 4294967296,
   (x.c + y.c) % 4294967296, (x.d + y.d) % 4294967296,
   (x.e + y.e) % 4294967296, (x.f + y.f) % 4294967296,
   (x.g + y.g) % 4294967296, (x.h + y.h) % 4294967296⟩

end Sha256

/-- Split a list into chunks of `n + 1` elements, with an explicit fuel
bound so that the recursion is structural (and kernel-reducible). -/
def chunkListAux (n : Nat) : Nat → List Nat → List (List Nat)
  | _, [] => []
  | 0, l => [l]
  | fuel + 1, l => l.take (n + 1) :: chunkListAux n fuel (l.drop (n + 1))

/-- Split a list into chunks of `n + 1` elements (last chunk may be shorter). -/
def chunkList (n : Nat) (l : List Nat) : List (List Nat) :=
  chunkListAux n l.length l

namespace Sha256

/-- The sixteen 32-bit big-endian words of a 64-byte block. -/
def blockWords (block : List Nat) : List Nat :=
  (chunkList 3 block).map beToNat

/-- Compress one 64-byte block into the running hash state. -/
def compressBlock (hst : St) (block : List Nat) : St :=
  let w := schedule (blockWords block)
  let st := (w.zip K).foldl roundStep hst
  addSt hst st

/-- SHA padding: append `0x80`, zeros and the 64-bit big-endian bit length,
reaching a multiple of 64 bytes. -/
def padMsg (msg : List Nat) : List Nat :=
  let l := msg.length
  msg ++ 128 :: List.replicate ((119 - l % 64) % 64) 0 ++ beBytes 8 (8 * l)

/-- SHA-256 digest of a byte list, as 32 bytes. -/
def hashBytes (msg : List Nat) : List Nat :=
  let fin := (chunkList 63 (padMsg msg)).foldl compressBlock H0
  beBytes 4 fin.a ++ beBytes 4 fin.b ++ beBytes 4 fin.c ++ beBytes 4 fin.d ++
  beBytes 4 fin.e ++ beBytes 4 fin.f ++ beBytes 4 fin.g ++ beBytes 4 fin.h

/-- SHA-256 hex digest of a byte list (`hashlib.sha256(msg).hexdigest()`). -/
def hexdigest (msg : List Nat) : String := bytesToHex (hashBytes msg)

end Sha256

example : Sha256.hexdigest [] =
    "e3b0c44298fc1c149afbf4c8996fb92427ae41e4649b934ca495991b7852b855" := by decide

example : Sha256.hexdigest (strBytes "hello") =
    "2cf24dba5fb0a30e26e83b2ac5b9e29e1b161e5c1fa7425e73043362938b9824" := by decide

/-! ## SHA-1 (the `hashlib` model for algorithm `"sha1"`) -/

namespace Sha1

/-- 32-bit left rotation. -/
def rotl (n x : Nat) : Nat :=
  ((x <<< n) ||| (x >>> (32 - n))) % 4294967296

/-- Working state: five 32-bit words. -/
structure St where
  a : Nat
  b : Nat
  c : Nat
  d : Nat
  e : Nat
deriving Repr, DecidableEq

/-- Initial hash value. -/
def H0 : St := ⟨1732584193, 4023233417, 2562383102, 271733878, 3285377520⟩

/-- One message-schedule extension step: append `w[i]` for `i = w.length`. -/
def extendStep (w : List Nat) : List Nat :=
  let i := w.length
  w ++ [rotl 1 (w.getD (i - 3) 0 ^^^ w.getD (i - 8) 0 ^^^
                w.getD (i - 14) 0 ^^^ w.getD (i - 16) 0)]

/-- Full 80-word message schedule from the 16 block words. -/
def schedule (w16 : List Nat) : List Nat :=
  Nat.repeat extendStep 64 w16

/-- Round function and constant for round `i`. -/
def fk (i : Nat) (st : St) : Nat × Nat :=
  if i < 20 then ((st.b &&& st.c) ^^^ ((st.b ^^^ 4294967295) &&& st.d), 1518500249)
  else if i < 40 then (st.b ^^^ st.c ^^^ st.d, 1859775393)
  else if i < 60 then ((st.b &&& st.c) ^^^ (st.b &&& st.d) ^^^ (st.c &&& st.d), 2400959708)
  else (st.b ^^^ st.c ^^^ st.d, 3395469782)

/-- One compression round with round index `i` and schedule word `w`. -/
def roundStep (st : St) (iw : Nat × Nat) : St :=
  let f := (fk iw.1 st).1
  let k := (fk iw.1 st).2
  let temp := (rotl 5 st.a + f + st.e + k + iw.2) % 4294967296
  ⟨temp, st.a, rotl 30 st.b, st.c, st.d⟩

/-- Add two states word-wise mod 2^32. -/
def addSt (x y : St) : St :=
  ⟨(x.a + y.a) % 4294967296, (x.b + y.b) % 4294967296,
   (x.c + y.c) % 4294967296, (x.d + y.d) % 4294967296,
   (x.e + y.e) % 4294967296⟩

/-- Compress one 64-byte block into the running hash state. -/
def compressBlock (hst : St) (block : List Nat) : St :=
  let w := schedule ((chunkList 3 block).map beToNat)
  let st := ((List.range 80).zip w).foldl roundStep hst
  addSt hst st

/-- SHA-1 digest of a byte list, as 20 bytes (padding as in SHA-256). -/
def hashBytes (msg : List Nat) : List Nat :=
  let fin := (chunkList 63 (Sha256.padMsg msg)).foldl compressBlock H0
  beBytes 4 fin.a ++ beBytes 4 fin.b ++ beBytes 4 fin.c ++
  beBytes 4 fin.d ++ beBytes 4 fin.e

/-- SHA-1 hex digest of a byte list (`hashlib.sha1(msg).hexdigest()`). -/
def hexdigest (msg : List Nat) : String := bytesToHex (hashBytes msg)

end Sha1

example : Sha1.hexdigest [] = "da39a3ee5e6b4b0d3255bfef95601890afd80709" := by decide

example : Sha1.hexdigest (strBytes "hello") =
    "aaf4c61ddcc5e8a2dabede0f3b482cd9aea9434d" := by decide

/-! ## `hashlib.new` and `hash_file`

`hashlib.new(algo)` is modelled as a partial map from algorithm names to
hex-digest functions, covering the two algorithms the claims exercise;
every other name raises `ValueError`, modelled by `none`. -/

/-- `hashlib.new(algo)`: `some` digest function for a supported algorithm
name, `none` for the `ValueError` raised on an unrecognized name. -/
def hashlibNew (algo : String) : Option (List Nat → String) :=
  if algo = "sha256" then some Sha256.hexdigest
  else if algo = "sha1" then some Sha1.hexdigest
  else none

/-- `hash_file(file_path, algo)`: feed the file's bytes to the hasher in
8192-byte chunks and return the hex digest; `none` models the
`ValueError` from `hashlib.new` on an unsupported algorithm. The hasher
object is modelled by its accumulated input, so `update` is append. -/
def hash_file (content : List Nat) (algo : String) : Option String :=
  match hashlibNew algo with
  | none => none
  | some hasher =>
      some (hasher ((chunkList 8191 content).foldl (fun acc chunk => acc ++ chunk) []))

/-! ## `fnmatch` (POSIX `os.path.normcase` is the identity)

Whole-string glob matching as in Python's `fnmatch.fnmatch`: `*` matches
any run of characters (including `/`), `?` any single character, and
`[...]`/`[!...]` character classes with ranges; a `[` with no closing `]`
is a literal. A reversed range matches nothing. -/

/-- Split a bracket-class body at its closing `]`. -/
def findClose : List Char → Option (List Char × List Char)
  | [] => none
  | ']' :: r => some ([], r)
  | c :: r => (findClose r).map (fun pr => (c :: pr.1, pr.2))

/-- Parse a bracket class after the opening `[`: negation flag, class
content, and rest of the pattern. A `]` directly after `[` (or `[!`) is
part of the content, as in Python. -/
def splitBracket (cs : List Char) : Option (Bool × List Char × List Char) :=
  match cs with
  | '!' :: rest =>
      (match rest with
       | ']' :: r2 => (findClose r2).map (fun pr => (true, ']' :: pr.1, pr.2))
       | _ => (findClose rest).map (fun pr => (true, pr.1, pr.2)))
  | ']' :: r2 => (findClose r2).map (fun pr => (false, ']' :: pr.1, pr.2))
  | _ => (findClose cs).map (fun pr => (false, pr.1, pr.2))

/-- Does a character match a bracket-class content? -/
def bracketMatch : List Char → Char → Bool
  | [], _ => false
  | [x], c => x == c
  | x :: '-' :: y :: rest, c => (x ≤ c && c ≤ y) || bracketMatch rest c
  | x :: rest, c => x == c || bracketMatch rest c

/-- Fuel-bounded whole-string glob matcher (pattern, then subject). Every
recursive call strictly decreases `pattern.length + subject.length`, so
any fuel above that sum gives the fixpoint. -/
def globMatchAux : Nat → List Char → List Char → Bool
  | 0, _, _ => false
  | _ + 1, [], s => s.isEmpty
  | fuel + 1, '*' :: ps, s =>
      globMatchAux fuel ps s ||
      (match s with
       | [] => false
       | _ :: s2 => globMatchAux fuel ('*' :: ps) s2)
  | fuel + 1, '?' :: ps, s =>
      (match s with
       | [] => false
       | _ :: s2 => globMatchAux fuel ps s2)
  | fuel + 1, '[' :: ps, s =>
      (match splitBracket ps with
       | some (neg, content, rest) =>
           (match s with
            | [] => false
            | c :: s2 => (bracketMatch content c != neg) && globMatchAux fuel rest s2)
       | none =>
           (match s with
            | [] => false
            | c :: s2 => c == '[' && globMatchAux fuel ps s2))
  | fuel + 1, p :: ps, s =>
      (match s with
       | [] => false
       | c :: s2 => p == c && globMatchAux fuel ps s2)

/-- `fnmatch.fnmatch(name, pattern)` on a POSIX host. -/
def fnmatch (name pattern : String) : Bool :=
  globMatchAux (pattern.length + name.length + 1) pattern.data name.data

example : fnmatch "sub/b.log" "*.log" = true := by decide
example : fnmatch "sub/b.log" "*.txt" = false := by decide
example : fnmatch "sub/b.log" "sub/?.log" = true := by decide
example : fnmatch "ab" "a[a-c]" = true := by decide
example : fnmatch "ad" "a[!a-c]" = true := by decide
example : fnmatch "ab" "a[" = false := by decide
example : fnmatch "a[" "a[" = true := by decide

/-! ## The directory snapshot and `os.walk`

A snapshot records, for each directory, its regular files and its
subdirectories **in the raw iteration order the OS reports** (`os.walk`
yields `files` and recurses into `dirs` in exactly that order; the script
sorts only `files`). A file carries its byte content, whether reading it
will succeed, and the host-provided renderings of its modification time
(`str(float)` for the text line, ISO-8601 for the JSON document). -/

structure FileEntry where
  name : String
  content : List Nat
  readable : Bool
  mtimeStr : String
  mtimeIso : String
deriving Repr, DecidableEq

mutual
inductive FSTree where
  | node (files : List FileEntry) (subdirs : DirList)
deriving Repr

inductive DirList where
  | dnil
  | dcons (name : String) (tree : FSTree) (rest : DirList)
deriving Repr
end

/-- `os.path.relpath(os.path.join(root, name), directory)` relative to the
walk's current relative directory `pre` (empty at the top). -/
def childPre (pre name : String) : String :=
  if pre = "" then name else pre ++ "/" ++ name

mutual
/-- `os.walk(directory)` (top-down): the current directory's files first,
then each subdirectory in raw order; directory paths are kept relative. -/
def walkTree (pre : String) (t : FSTree) : List (String × List FileEntry) :=
  match t with
  | .node files subdirs => (pre, files) :: walkSubdirs pre subdirs

def walkSubdirs (pre : String) : DirList → List (String × List FileEntry)
  | .dnil => []
  | .dcons name t rest => walkTree (childPre pre name) t ++ walkSubdirs pre rest
end

/-- Lexicographic comparison of character lists by code point. -/
def charListLe : List Char → List Char → Bool
  | [], _ => true
  | _ :: _, [] => false
  | c :: cs, d :: ds =>
      if c.toNat < d.toNat then true
      else if d.toNat < c.toNat then false
      else charListLe cs ds

/-- Python's string `<=`: lexicographic by code point. -/
def pyStrLe (a b : String) : Bool := charListLe a.data b.data

/-- Lexicographic comparison of byte lists. -/
def byteListLe : List Nat → List Nat → Bool
  | [], _ => true
  | _ :: _, [] => false
  | x :: xs, y :: ys =>
      if x < y then true
      else if y < x then false
      else byteListLe xs ys

/-- Byte-wise string order (on the UTF-8 encodings). -/
def strLeBytes (a b : String) : Bool := byteListLe (strBytes a) (strBytes b)

/-- Stable insertion of a file after all files with a `≤` name. -/
def insertFile (f : FileEntry) : List FileEntry → List FileEntry
  | [] => [f]
  | g :: rest => if pyStrLe g.name f.name then g :: insertFile f rest else f :: g :: rest

/-- Python's `sorted(files)`: stable ascending sort by name
(code-point order, as Python compares strings). -/
def sortedFiles (files : List FileEntry) : List FileEntry :=
  files.foldl (fun acc f => insertFile f acc) []

/-! ## The Fingerprint Engine (`generate_fingerprint`) -/

/-- Messages sent to the progress/log sink inside the per-file loop. -/
inductive LogEvent where
  | excluding (relativePath : String)
  | errorProcessing (filePath : String)
deriving Repr, DecidableEq

/-- One entry of `detailed_metadata` (the `fingerprint.json` array). -/
structure MetaEntry where
  file_path : String
  hash : String
  size : Nat
  modified_time : String
deriving Repr, DecidableEq

/-- The three output artifacts, written only on normal completion. -/
structure Artifacts where
  file_hashes_txt : String
  project_fingerprint_txt : String
  fingerprint_json_records : List MetaEntry
  fingerprint_json_combined : String
deriving Repr, DecidableEq

/-- Fatal conditions: `ValueError` on an invalid root, and the
`ValueError` from `hashlib.new` at the combined-digest step. -/
inductive FatalError where
  | invalidRoot
  | unsupportedAlgorithm
deriving Repr, DecidableEq

deriving instance DecidableEq for Except

/-- Loop state: the `file_hashes` lines, `detailed_metadata`, and the log
messages emitted so far. -/
structure Accum where
  file_hashes : List String
  detailed_metadata : List MetaEntry
  logs : List LogEvent
deriving Repr, DecidableEq

def Accum.empty : Accum := ⟨[], [], []⟩

def Accum.app (x y : Accum) : Accum :=
  ⟨x.file_hashes ++ y.file_hashes,
   x.detailed_metadata ++ y.detailed_metadata,
   x.logs ++ y.logs⟩

/-- `any(fnmatch(relative_path, pattern) for pattern in exclude)`. -/
def matchAnyExcl (exclude : List String) (relativePath : String) : Bool :=
  exclude.any (fun pat => fnmatch relativePath pat)

/-- The body of the inner `for file in tqdm(sorted(files), ...)` loop:
exclusion check, then the `try` block (hash, size, mtime, append), with
any per-file exception logged and the file skipped. -/
def processFile (directory : String) (exclude : List String) (verbose : Bool)
    (algo : String) (pre : String) (acc : Accum) (f : FileEntry) : Accum :=
  let relative_path := childPre pre f.name
  if matchAnyExcl exclude relative_path then
    if verbose then { acc with logs := acc.logs ++ [LogEvent.excluding relative_path] }
    else acc
  else
    let file_path := directory ++ "/" ++ relative_path
    match hash_file f.content algo with
    | none =>
        { acc with logs := acc.logs ++ [LogEvent.errorProcessing file_path] }
    | some file_hash =>
        if f.readable then
          let file_size := f.content.length
          { acc with
            detailed_metadata := acc.detailed_metadata ++
              [{ file_path := relative_path, hash := file_hash, size := file_size,
                 modified_time := f.mtimeIso }],
            file_hashes := acc.file_hashes ++
              [file_hash ++ "  " ++ relative_path ++ "  " ++ toString file_size ++
               "  " ++ f.mtimeStr] }
        else
          { acc with logs := acc.logs ++ [LogEvent.errorProcessing file_path] }

/-- `generate_fingerprint(directory, exclude, verbose, algo)`.

`tree` is the snapshot behind `directory`: `none` when
`os.path.isdir(directory)` is false. The returned pair is (messages sent
to the log sink, fatal error or written artifacts); a fatal error means
the run raised before opening any output file. -/
def generate_fingerprint (directory : String) (tree : Option FSTree)
    (exclude : List String) (verbose : Bool) (algo : String) :
    List LogEvent × Except FatalError Artifacts :=
  match tree with
  | none => ([], Except.error FatalError.invalidRoot)
  | some t =>
      let acc := (walkTree "" t).foldl
        (fun acc pf =>
          (sortedFiles pf.2).foldl (processFile directory exclude verbose algo pf.1) acc)
        Accum.empty
      match hashlibNew algo with
      | none => (acc.logs, Except.error FatalError.unsupportedAlgorithm)
      | some hasher =>
          let joined := String.intercalate "\n" acc.file_hashes
          let combined_hash := hasher (strBytes joined)
          (acc.logs,
           Except.ok
             { file_hashes_txt := joined,
               project_fingerprint_txt := combined_hash,
               fingerprint_json_records := acc.detailed_metadata,
               fingerprint_json_combined := combined_hash })

/-- `argparse` rejects `--hash-algo` values outside
`hashlib.algorithms_available`. -/
def algorithms_available (algo : String) : Bool := (hashlibNew algo).isSome

/-- `argparse` exiting with an invalid-choice error before the engine runs. -/
inductive CliError where
  | invalidChoice
deriving Repr, DecidableEq

/-- The `__main__` block: argument validation (including the `choices`
check on `--hash-algo`), then the engine. -/
def cliMain (directory : String) (tree : Option FSTree)
    (exclude : List String) (verbose : Bool) (hash_algo : String) :
    Except CliError (List LogEvent × Except FatalError Artifacts) :=
  if algorithms_available hash_algo then
    Except.ok (generate_fingerprint directory tree exclude verbose hash_algo)
  else
    Except.error CliError.invalidChoice

/-! ## Enumeration view used by the theorems -/

/-- All enumerated files in processing order, paired with their relative
paths: per-directory name-sorted files, directories in walk order. -/
def enumFiles (t : FSTree) : List (String × FileEntry) :=
  (walkTree "" t).flatMap
    (fun pf => (sortedFiles pf.2).map (fun f => (childPre pf.1 f.name, f)))

/-- What one enumerated file contributes to the loop state. -/
def fileEmit (directory : String) (exclude : List String) (verbose : Bool)
    (algo : String) (p : String × FileEntry) : Accum :=
  if matchAnyExcl exclude p.1 then
    if verbose then ⟨[], [], [LogEvent.excluding p.1]⟩ else Accum.empty
  else
    match hash_file p.2.content algo with
    | none => ⟨[], [], [LogEvent.errorProcessing (directory ++ "/" ++ p.1)]⟩
    | some file_hash =>
        if p.2.readable then
          ⟨[file_hash ++ "  " ++ p.1 ++ "  " ++ toString p.2.content.length ++
            "  " ++ p.2.mtimeStr],
           [{ file_path := p.1, hash := file_hash, size := p.2.content.length,
              modified_time := p.2.mtimeIso }],
           []⟩
        else
          ⟨[], [], [LogEvent.errorProcessing (directory ++ "/" ++ p.1)]⟩

/-! Sanity checks of a concrete run (the round-trip scenario of the spec). -/

def treeRoundTrip : FSTree :=
  .node [⟨"a.txt", strBytes "hello", true, "100.0", "isoA"⟩]
    (.dcons "sub" (.node [⟨"b.txt", strBytes "world", true, "200.0", "isoB"⟩] .dnil) .dnil)

example :
    (generate_fingerprint "root" (some treeRoundTrip) [] false "sha256").2.toOption.map
      Artifacts.file_hashes_txt =
    some ("2cf24dba5fb0a30e26e83b2ac5b9e29e1b161e5c1fa7425e73043362938b9824  a.txt  5  100.0\n" ++
      "486ea46224d1bb4fb680f34f7c9ad96a8f24ec88be73ea8e5a6c65260e9cb8a7  sub/b.txt  5  200.0") := by
  decide

/-! ## Chunked reading equals a single update -/

/-- Specification-side definition: the digest of the entire content fed to
the hasher as one `update` call (the naive whole-content hash that the
chunked `hash_file` is claimed to equal). -/
def singleUpdateHash (content : List Nat) (algo : String) : Option String :=
  match hashlibNew algo with
  | none => none
  | some hasher => some (hasher content)

theorem chunkListAux_foldl_append (n : Nat) :
    ∀ (fuel : Nat) (l a : List Nat), l.length ≤ fuel →
      (chunkListAux n fuel l).foldl (fun acc chunk => acc ++ chunk) a = a ++ l := by
  intro fuel
  induction fuel with
  | zero =>
      intro l a hl
      have hnil : l = [] := List.length_eq_zero.mp (Nat.le_zero.mp hl)
      subst hnil
      simp [chunkListAux]
  | succ fuel ih =>
      intro l a hl
      cases l with
      | nil => simp [chunkListAux]
      | cons x xs =>
          simp only [chunkListAux, List.foldl_cons]
          rw [ih ((x :: xs).drop (n + 1)) (a ++ (x :: xs).take (n + 1))
                (by simp only [List.length_drop, List.length_cons] at hl ⊢; omega),
              List.append_assoc, List.take_append_drop]

/-- Reassembling the 8192-byte read chunks gives back the whole content. -/
theorem chunkList_reassemble (n : Nat) (l : List Nat) :
    (chunkList n l).foldl (fun acc chunk => acc ++ chunk) [] = l := by
  simpa [chunkList] using chunkListAux_foldl_append n l.length l [] (Nat.le_refl _)

/-! ## Digest shape lemmas -/

theorem beBytes_length (w : Nat) : ∀ v, (beBytes w v).length = w := by
  induction w with
  | zero => intro v; rfl
  | succ w ih => intro v; simp [beBytes, ih]

theorem beBytes_lt (w : Nat) : ∀ v, ∀ b ∈ beBytes w v, b < 256 := by
  induction w with
  | zero => intro v b hb; simp [beBytes] at hb
  | succ w ih =>
      intro v b hb
      simp only [beBytes, List.mem_append, List.mem_singleton] at hb
      rcases hb with h | h
      · exact ih _ b h
      · subst h; exact Nat.mod_lt _ (by norm_num)

theorem sha256_hashBytes_length (msg : List Nat) : (Sha256.hashBytes msg).length = 32 := by
  simp [Sha256.hashBytes, beBytes_length]

theorem sha1_hashBytes_length (msg : List Nat) : (Sha1.hashBytes msg).length = 20 := by
  simp [Sha1.hashBytes, beBytes_length]

theorem sha256_hashBytes_lt (msg : List Nat) : ∀ b ∈ Sha256.hashBytes msg, b < 256 := by
  intro b hb
  simp only [Sha256.hashBytes, List.mem_append] at hb
  rcases hb with ((((((h | h) | h) | h) | h) | h) | h) | h <;> exact beBytes_lt 4 _ b h

theorem sha1_hashBytes_lt (msg : List Nat) : ∀ b ∈ Sha1.hashBytes msg, b < 256 := by
  intro b hb
  simp only [Sha1.hashBytes, List.mem_append] at hb
  rcases hb with (((h | h) | h) | h) | h <;> exact beBytes_lt 4 _ b h

theorem bytesToHex_length (bs : List Nat) : (bytesToHex bs).length = 2 * bs.length := by
  show (bs.flatMap fun b => [hexChar (b / 16), hexChar (b % 16)]).length = 2 * bs.length
  induction bs with
  | nil => rfl
  | cons b bs ih =>
      simp only [List.flatMap_cons, List.length_append, List.length_cons, List.length_nil, ih]
      omega

/-- Is this character a lowercase hex digit? -/
def isHexDigitChar (c : Char) : Bool := hexChars.contains c

theorem hexChar_isHex : ∀ n, n < 16 → isHexDigitChar (hexChar n) = true := by decide

/-- `hash_file` on a supported algorithm returns the digest of the whole
content (the chunked reads reassemble to the content). -/
theorem hash_file_some (content : List Nat) (algo : String) (h : List Nat → String)
    (hh : hashlibNew algo = some h) : hash_file content algo = some (h content) := by
  unfold hash_file
  rw [hh, chunkList_reassemble]

theorem hash_file_none (content : List Nat) (algo : String)
    (hh : hashlibNew algo = none) : hash_file content algo = none := by
  unfold hash_file
  rw [hh]

/-! ## Loop-state algebra

The per-file loop only ever appends to the three accumulated lists, so the
final state is the concatenation of per-file contributions; this is what
lets the loop be described as filter/map over the enumeration. -/

theorem Accum.app_assoc (x y z : Accum) : (x.app y).app z = x.app (y.app z) := by
  simp [Accum.app]

theorem Accum.empty_app (x : Accum) : Accum.empty.app x = x := by
  cases x; simp [Accum.app, Accum.empty]

theorem Accum.app_empty (x : Accum) : x.app Accum.empty = x := by
  cases x; simp [Accum.app, Accum.empty]

/-- Concatenation of per-item contributions. -/
def emitList {α : Type} (e : α → Accum) (l : List α) : Accum :=
  l.foldr (fun x r => (e x).app r) Accum.empty

theorem foldl_app_emit {α : Type} (e : α → Accum) (l : List α) :
    ∀ a : Accum, l.foldl (fun acc x => acc.app (e x)) a = a.app (emitList e l) := by
  induction l with
  | nil => intro a; simp [emitList, Accum.app_empty]
  | cons x xs ih =>
      intro a
      simp only [List.foldl_cons, emitList, List.foldr_cons] at *
      rw [ih, Accum.app_assoc]

theorem emitList_append {α : Type} (e : α → Accum) (l1 l2 : List α) :
    emitList e (l1 ++ l2) = (emitList e l1).app (emitList e l2) := by
  induction l1 with
  | nil => simp [emitList, Accum.empty_app]
  | cons x xs ih =>
      simp only [List.cons_append, emitList, List.foldr_cons] at *
      rw [ih, Accum.app_assoc]

theorem emitList_map {α β : Type} (e : β → Accum) (g : α → β) (l : List α) :
    emitList e (l.map g) = emitList (fun x => e (g x)) l := by
  induction l with
  | nil => rfl
  | cons x xs ih =>
      simp only [List.map_cons, emitList, List.foldr_cons] at *
      rw [ih]

theorem emitList_file_hashes {α : Type} (e : α → Accum) (l : List α) :
    (emitList e l).file_hashes = l.flatMap (fun x => (e x).file_hashes) := by
  induction l with
  | nil => rfl
  | cons x xs ih => simp only [emitList, List.foldr_cons, List.flatMap_cons, Accum.app] at *; rw [ih]

theorem emitList_detailed {α : Type} (e : α → Accum) (l : List α) :
    (emitList e l).detailed_metadata = l.flatMap (fun x => (e x).detailed_metadata) := by
  induction l with
  | nil => rfl
  | cons x xs ih => simp only [emitList, List.foldr_cons, List.flatMap_cons, Accum.app] at *; rw [ih]

theorem emitList_logs {α : Type} (e : α → Accum) (l : List α) :
    (emitList e l).logs = l.flatMap (fun x => (e x).logs) := by
  induction l with
  | nil => rfl
  | cons x xs ih => simp only [emitList, List.foldr_cons, List.flatMap_cons, Accum.app] at *; rw [ih]

/-- Each loop iteration appends exactly the file's contribution. -/
theorem processFile_eq (directory : String) (exclude : List String) (verbose : Bool)
    (algo pre : String) (acc : Accum) (f : FileEntry) :
    processFile directory exclude verbose algo pre acc f =
      acc.app (fileEmit directory exclude verbose algo (childPre pre f.name, f)) := by
  cases acc with
  | mk fh md lg =>
      simp only [processFile, fileEmit]
      by_cases hm : matchAnyExcl exclude (childPre pre f.name)
      · by_cases hv : verbose <;> simp [hm, hv, Accum.app, Accum.empty]
      · simp only [hm, Bool.false_eq_true, if_neg, ite_false]
        cases hh : hash_file f.content algo with
        | none => simp [Accum.app]
        | some file_hash => by_cases hr : f.readable <;> simp [hr, Accum.app]

/-- The engine's nested loops compute the concatenation of per-file
contributions over the enumeration order. -/
theorem engine_acc_eq (directory : String) (exclude : List String) (verbose : Bool)
    (algo : String) (t : FSTree) :
    (walkTree "" t).foldl
      (fun acc pf =>
        (sortedFiles pf.2).foldl (processFile directory exclude verbose algo pf.1) acc)
      Accum.empty
    = emitList (fileEmit directory exclude verbose algo) (enumFiles t) := by
  have hinner : ∀ (pre : String) (files : List FileEntry) (acc : Accum),
      files.foldl (processFile directory exclude verbose algo pre) acc =
        acc.app (emitList (fileEmit directory exclude verbose algo)
          (files.map (fun f => (childPre pre f.name, f)))) := by
    intro pre files acc
    rw [emitList_map]
    have hfun : processFile directory exclude verbose algo pre =
        fun acc f =>
          acc.app (fileEmit directory exclude verbose algo (childPre pre f.name, f)) :=
      funext fun acc => funext fun f => processFile_eq directory exclude verbose algo pre acc f
    rw [hfun, foldl_app_emit]
  have houter : ∀ (ws : List (String × List FileEntry)) (acc : Accum),
      ws.foldl
        (fun acc pf =>
          (sortedFiles pf.2).foldl (processFile directory exclude verbose algo pf.1) acc)
        acc
      = acc.app (emitList (fileEmit directory exclude verbose algo)
          (ws.flatMap
            (fun pf => (sortedFiles pf.2).map (fun f => (childPre pf.1 f.name, f))))) := by
    intro ws
    induction ws with
    | nil => intro acc; simp [emitList, Accum.app_empty]
    | cons w ws ih =>
        intro acc
        simp only [List.foldl_cons, List.flatMap_cons]
        rw [hinner w.1 (sortedFiles w.2) acc, ih, emitList_append, Accum.app_assoc]
  rw [houter, Accum.empty_app, enumFiles]

/-! ## What the run computes, as filter/map over the enumeration -/

/-- One `file_hashes` line (digest, relative path, size, raw mtime,
separated by two spaces). -/
def lineOf (hasher : List Nat → String) (p : String × FileEntry) : String :=
  hasher p.2.content ++ "  " ++ p.1 ++ "  " ++ toString p.2.content.length ++ "  " ++ p.2.mtimeStr

/-- One `detailed_metadata` entry. -/
def metaOf (hasher : List Nat → String) (p : String × FileEntry) : MetaEntry :=
  { file_path := p.1, hash := hasher p.2.content, size := p.2.content.length,
    modified_time := p.2.mtimeIso }

/-- The log messages one enumerated file produces (supported algorithm). -/
def logsOf (directory : String) (exclude : List String) (verbose : Bool)
    (p : String × FileEntry) : List LogEvent :=
  if matchAnyExcl exclude p.1 then (if verbose then [LogEvent.excluding p.1] else [])
  else if p.2.readable then []
  else [LogEvent.errorProcessing (directory ++ "/" ++ p.1)]

/-- The log messages one enumerated file produces when `hashlib.new`
raises for every file (unsupported algorithm). -/
def unsupportedLogsOf (directory : String) (exclude : List String) (verbose : Bool)
    (p : String × FileEntry) : List LogEvent :=
  if matchAnyExcl exclude p.1 then (if verbose then [LogEvent.excluding p.1] else [])
  else [LogEvent.errorProcessing (directory ++ "/" ++ p.1)]

/-- The enumerated files that survive exclusion filtering. -/
def retained (exclude : List String) (t : FSTree) : List (String × FileEntry) :=
  (enumFiles t).filter (fun p => !(matchAnyExcl exclude p.1))

/-- The `file_hashes` lines: retained readable files, in enumeration order. -/
def linesOf (hasher : List Nat → String) (exclude : List String) (t : FSTree) : List String :=
  ((enumFiles t).filter (fun p => !(matchAnyExcl exclude p.1) && p.2.readable)).map
    (lineOf hasher)

/-- The `detailed_metadata` entries: retained readable files, in order. -/
def metasOf (hasher : List Nat → String) (exclude : List String) (t : FSTree) :
    List MetaEntry :=
  ((enumFiles t).filter (fun p => !(matchAnyExcl exclude p.1) && p.2.readable)).map
    (metaOf hasher)

/-- The artifacts a successful run writes. -/
def artifactsOf (hasher : List Nat → String) (exclude : List String) (t : FSTree) :
    Artifacts :=
  { file_hashes_txt := String.intercalate "\n" (linesOf hasher exclude t),
    project_fingerprint_txt :=
      hasher (strBytes (String.intercalate "\n" (linesOf hasher exclude t))),
    fingerprint_json_records := metasOf hasher exclude t,
    fingerprint_json_combined :=
      hasher (strBytes (String.intercalate "\n" (linesOf hasher exclude t))) }

theorem fileEmit_file_hashes (directory : String) (exclude : List String) (verbose : Bool)
    (algo : String) (h : List Nat → String) (hh : hashlibNew algo = some h)
    (p : String × FileEntry) :
    (fileEmit directory exclude verbose algo p).file_hashes =
      if !(matchAnyExcl exclude p.1) && p.2.readable then [lineOf h p] else [] := by
  simp only [fileEmit, hash_file_some p.2.content algo h hh]
  by_cases hm : matchAnyExcl exclude p.1
  · by_cases hv : verbose <;> simp [hm, hv, Accum.empty]
  · by_cases hr : p.2.readable <;> simp [hm, hr, lineOf]

theorem fileEmit_detailed (directory : String) (exclude : List String) (verbose : Bool)
    (algo : String) (h : List Nat → String) (hh : hashlibNew algo = some h)
    (p : String × FileEntry) :
    (fileEmit directory exclude verbose algo p).detailed_metadata =
      if !(matchAnyExcl exclude p.1) && p.2.readable then [metaOf h p] else [] := by
  simp only [fileEmit, hash_file_some p.2.content algo h hh]
  by_cases hm : matchAnyExcl exclude p.1
  · by_cases hv : verbose <;> simp [hm, hv, Accum.empty]
  · by_cases hr : p.2.readable <;> simp [hm, hr, metaOf]

theorem fileEmit_logs (directory : String) (exclude : List String) (verbose : Bool)
    (algo : String) (h : List Nat → String) (hh : hashlibNew algo = some h)
    (p : String × FileEntry) :
    (fileEmit directory exclude verbose algo p).logs = logsOf directory exclude verbose p := by
  simp only [fileEmit, logsOf, hash_file_some p.2.content algo h hh]
  by_cases hm : matchAnyExcl exclude p.1
  · by_cases hv : verbose <;> simp [hm, hv, Accum.empty]
  · by_cases hr : p.2.readable <;> simp [hm, hr]

theorem fileEmit_logs_unsupported (directory : String) (exclude : List String)
    (verbose : Bool) (algo : String) (hh : hashlibNew algo = none)
    (p : String × FileEntry) :
    (fileEmit directory exclude verbose algo p).logs =
      unsupportedLogsOf directory exclude verbose p := by
  simp only [fileEmit, unsupportedLogsOf, hash_file_none p.2.content algo hh]
  by_cases hm : matchAnyExcl exclude p.1
  · by_cases hv : verbose <;> simp [hm, hv, Accum.empty]
  · simp [hm]

theorem flatMap_if_singleton {α β : Type} (c : α → Bool) (g : α → β) (l : List α) :
    l.flatMap (fun x => if c x then [g x] else []) = (l.filter c).map g := by
  induction l with
  | nil => rfl
  | cons x xs ih => by_cases h : c x <;> simp [h, ih]

theorem filter_flatMap {α β : Type} (f : α → List β) (q : β → Bool) (l : List α) :
    (l.flatMap f).filter q = l.flatMap (fun x => (f x).filter q) := by
  induction l with
  | nil => rfl
  | cons x xs ih => simp [List.filter_append, ih]

theorem filter_filter_comb {α : Type} (p q : α → Bool) (l : List α) :
    (l.filter p).filter q = l.filter (fun x => p x && q x) := by
  induction l with
  | nil => rfl
  | cons x xs ih => by_cases hp : p x <;> by_cases hq : q x <;> simp [hp, hq, ih]

theorem length_filter_split {α : Type} (p : α → Bool) (l : List α) :
    (l.filter p).length + (l.filter (fun x => !(p x))).length = l.length := by
  induction l with
  | nil => rfl
  | cons x xs ih => by_cases h : p x <;> simp [h, List.filter_cons] <;> omega

/-- A run over an existing root with a supported algorithm completes,
logging per the enumeration and writing exactly the filter/map artifacts. -/
theorem run_ok (directory : String) (exclude : List String) (verbose : Bool) (algo : String)
    (h : List Nat → String) (t : FSTree) (hh : hashlibNew algo = some h) :
    generate_fingerprint directory (some t) exclude verbose algo =
      ((enumFiles t).flatMap (logsOf directory exclude verbose),
       Except.ok (artifactsOf h exclude t)) := by
  simp only [generate_fingerprint]
  rw [engine_acc_eq, hh]
  have hfh : (emitList (fileEmit directory exclude verbose algo) (enumFiles t)).file_hashes =
      linesOf h exclude t := by
    rw [emitList_file_hashes]
    simp only [fileEmit_file_hashes directory exclude verbose algo h hh]
    rw [flatMap_if_singleton]
    rfl
  have hmd : (emitList (fileEmit directory exclude verbose algo) (enumFiles t)).detailed_metadata =
      metasOf h exclude t := by
    rw [emitList_detailed]
    simp only [fileEmit_detailed directory exclude verbose algo h hh]
    rw [flatMap_if_singleton]
    rfl
  have hlg : (emitList (fileEmit directory exclude verbose algo) (enumFiles t)).logs =
      (enumFiles t).flatMap (logsOf directory exclude verbose) := by
    rw [emitList_logs]
    simp only [fileEmit_logs directory exclude verbose algo h hh]
  rw [hfh, hmd, hlg]
  rfl

/-- A run over an existing root with an unsupported algorithm still walks
and enumerates every file (each per-file `ValueError` is caught and
logged) and then fails fatally at the combined-digest step. -/
theorem run_unsupported (directory : String) (exclude : List String) (verbose : Bool)
    (algo : String) (t : FSTree) (hh : hashlibNew algo = none) :
    generate_fingerprint directory (some t) exclude verbose algo =
      ((enumFiles t).flatMap (unsupportedLogsOf directory exclude verbose),
       Except.error FatalError.unsupportedAlgorithm) := by
  simp only [generate_fingerprint]
  rw [engine_acc_eq, hh, emitList_logs]
  simp only [fileEmit_logs_unsupported directory exclude verbose algo hh]

theorem bytesToHex_all_hex (bs : List Nat) (hb : ∀ b ∈ bs, b < 256) :
    (bytesToHex bs).data.all isHexDigitChar = true := by
  show (bs.flatMap fun b => [hexChar (b / 16), hexChar (b % 16)]).all isHexDigitChar = true
  induction bs with
  | nil => rfl
  | cons b bs ih =>
      have hb256 : b < 256 := hb b (List.mem_cons_self b bs)
      simp only [List.flatMap_cons, List.all_append, List.all_cons, List.all_nil,
        Bool.and_true, Bool.and_eq_true]
      exact ⟨⟨hexChar_isHex _ (by omega), hexChar_isHex _ (Nat.mod_lt _ (by norm_num))⟩,
        ih (fun x hx => hb x (List.mem_cons_of_mem b hx))⟩

/-- Is this log message a per-file error? -/
def isErrorEvent : LogEvent → Bool
  | .errorProcessing _ => true
  | .excluding _ => false

theorem logsOf_error_filter (directory : String) (exclude : List String) (verbose : Bool)
    (p : String × FileEntry) :
    (logsOf directory exclude verbose p).filter isErrorEvent =
      if !(matchAnyExcl exclude p.1) && !(p.2.readable)
      then [LogEvent.errorProcessing (directory ++ "/" ++ p.1)] else [] := by
  simp only [logsOf]
  by_cases hm : matchAnyExcl exclude p.1
  · by_cases hv : verbose <;> simp [hm, hv, isErrorEvent]
  · by_cases hr : p.2.readable <;> simp [hm, hr, isErrorEvent]

theorem sha256_hexdigest_length (msg : List Nat) : (Sha256.hexdigest msg).length = 64 := by
  show (bytesToHex (Sha256.hashBytes msg)).length = 64
  rw [bytesToHex_length, sha256_hashBytes_length]

theorem sha1_hexdigest_length (msg : List Nat) : (Sha1.hexdigest msg).length = 40 := by
  show (bytesToHex (Sha1.hashBytes msg)).length = 40
  rw [bytesToHex_length, sha1_hashBytes_length]

/-! ## Concrete snapshots used by witnesses and counterexamples -/

/-- Two subdirectories whose raw iteration order is `b` before `a`. -/
def treeRawBA : FSTree :=
  .node [] (.dcons "b" (.node [⟨"f.txt", strBytes "x", true, "1.0", "i1"⟩] .dnil)
    (.dcons "a" (.node [⟨"g.txt", strBytes "y", true, "2.0", "i2"⟩] .dnil) .dnil))

/-- The same snapshot with the raw iteration order permuted to `a`, `b`. -/
def treeRawAB : FSTree :=
  .node [] (.dcons "a" (.node [⟨"g.txt", strBytes "y", true, "2.0", "i2"⟩] .dnil)
    (.dcons "b" (.node [⟨"f.txt", strBytes "x", true, "1.0", "i1"⟩] .dnil) .dnil))

/-- A root with a single readable file. -/
def treeOneFile : FSTree := .node [⟨"a.txt", strBytes "hello", true, "100.0", "isoA"⟩] .dnil

/-- A root with a readable file and an unreadable one. -/
def treeOneBad : FSTree :=
  .node [⟨"a.txt", strBytes "hello", true, "100.0", "isoA"⟩,
         ⟨"bad.txt", strBytes "oops", false, "300.0", "isoC"⟩] .dnil

/-- A root with no files at all. -/
def treeEmpty : FSTree := .node [] .dnil

/-! ## The claims -/

/-- C1: the claim states the record sequence feeding combinedDigest is
sorted by relativePath and hence invariant under permutations of the raw
filesystem iteration order. The code sorts only the files within each
directory and never sorts the combined record list, so on a snapshot with
two subdirectories, permuting the raw subdirectory order permutes the
records and changes combinedDigest, and the record sequence is not sorted
by relative path. -/
theorem c1_walk_order_dependence :
    ((generate_fingerprint "root" (some treeRawBA) [] false "sha256").2.toOption.map
        Artifacts.project_fingerprint_txt ≠
      (generate_fingerprint "root" (some treeRawAB) [] false "sha256").2.toOption.map
        Artifacts.project_fingerprint_txt) ∧
    ((generate_fingerprint "root" (some treeRawBA) [] false "sha256").2.toOption.map
        (fun out => out.fingerprint_json_records.map MetaEntry.file_path) =
      some ["b/f.txt", "a/g.txt"]) ∧
    strLeBytes "b/f.txt" "a/g.txt" = false := by decide

/-- C2: a file is excluded iff its relative path matches at least one glob
pattern; excluded files are never hashed (they produce no error log even
when unreadable), produce no FileRecord and no `file_hashes.txt` line, and
the combined digest is computed from the retained lines only. -/
theorem c2_exclusion_correctness (directory : String) (exclude : List String)
    (verbose : Bool) (algo : String) (h : List Nat → String) (t : FSTree)
    (hh : hashlibNew algo = some h) :
    generate_fingerprint directory (some t) exclude verbose algo =
      ((enumFiles t).flatMap (logsOf directory exclude verbose),
       Except.ok (artifactsOf h exclude t)) :=
  run_ok directory exclude verbose algo h t hh

theorem c2_witness :
    generate_fingerprint "root" (some treeRoundTrip) ["sub/*"] true "sha256" =
      ((enumFiles treeRoundTrip).flatMap (logsOf "root" ["sub/*"] true),
       Except.ok (artifactsOf Sha256.hexdigest ["sub/*"] treeRoundTrip)) :=
  c2_exclusion_correctness "root" ["sub/*"] true "sha256" Sha256.hexdigest treeRoundTrip rfl

/-- C3: when exactly one retained file is unreadable, the failure is caught
at the per-file boundary: the run completes normally, exactly one error is
logged (naming that file), and the artifacts cover the remaining
retained files (one fewer than the retained count). -/
theorem c3_partial_failure_tolerance (directory : String) (exclude : List String)
    (verbose : Bool) (algo : String) (h : List Nat → String) (t : FSTree)
    (p0 : String × FileEntry) (hh : hashlibNew algo = some h)
    (h1 : (retained exclude t).filter (fun p => !(p.2.readable)) = [p0]) :
    (generate_fingerprint directory (some t) exclude verbose algo).2 =
      Except.ok (artifactsOf h exclude t) ∧
    ((generate_fingerprint directory (some t) exclude verbose algo).1.filter isErrorEvent =
      [LogEvent.errorProcessing (directory ++ "/" ++ p0.1)]) ∧
    (linesOf h exclude t).length + 1 = (retained exclude t).length := by
  have hsplit := length_filter_split (fun p => p.2.readable) (retained exclude t)
  have h1len : ((retained exclude t).filter (fun p => !(p.2.readable))).length = 1 := by
    rw [h1]; rfl
  have hlines : linesOf h exclude t =
      ((retained exclude t).filter (fun p => p.2.readable)).map (lineOf h) := by
    rw [linesOf, retained, filter_filter_comb]
  refine ⟨?_, ?_, ?_⟩
  · rw [run_ok directory exclude verbose algo h t hh]
  · rw [run_ok directory exclude verbose algo h t hh]
    have h1' : (enumFiles t).filter
        (fun p => !(matchAnyExcl exclude p.1) && !(p.2.readable)) = [p0] := by
      rw [← filter_filter_comb]
      exact h1
    rw [filter_flatMap]
    simp only [logsOf_error_filter]
    rw [flatMap_if_singleton, h1']
    rfl
  · rw [hlines, List.length_map]
    omega

theorem c3_witness :
    (generate_fingerprint "root" (some treeOneBad) [] false "sha256").2 =
      Except.ok (artifactsOf Sha256.hexdigest [] treeOneBad) ∧
    ((generate_fingerprint "root" (some treeOneBad) [] false "sha256").1.filter isErrorEvent =
      [LogEvent.errorProcessing "root/bad.txt"]) ∧
    (linesOf Sha256.hexdigest [] treeOneBad).length + 1 = (retained [] treeOneBad).length :=
  c3_partial_failure_tolerance "root" [] false "sha256" Sha256.hexdigest treeOneBad
    ("bad.txt", ⟨"bad.txt", strBytes "oops", false, "300.0", "isoC"⟩) rfl (by decide)

/-- C4: when the root is not an existing directory the run fails with the
InvalidRoot error immediately: nothing is logged, nothing is hashed, and
no artifact is written — pre-existing artifacts are untouched. -/
theorem c4_invalid_root (directory : String) (exclude : List String) (verbose : Bool)
    (algo : String) :
    generate_fingerprint directory none exclude verbose algo =
      ([], Except.error FatalError.invalidRoot) := rfl

/-- C5 counterexample: calling the engine with the unrecognized algorithm
"sha999" over a one-file root is *not* rejected before traversal: the file
is enumerated and its per-file `hashlib.new` failure is caught and logged,
and only the combined-digest step aborts the run. -/
theorem c5_counterexample :
    (generate_fingerprint "root" (some treeOneFile) [] false "sha999").1 =
      [LogEvent.errorProcessing "root/a.txt"] ∧
    (generate_fingerprint "root" (some treeOneFile) [] false "sha999").2 =
      Except.error FatalError.unsupportedAlgorithm := by decide

/-- C5 (amended): the CLI rejects an unsupported algorithm identifier
before the engine runs; the engine itself, invoked with an unsupported
algorithm, still enumerates files (logging one caught error per retained
file) and then fails fatally with UnsupportedAlgorithm at the
combined-digest step, before any output artifact is produced. -/
theorem c5_unsupported_algorithm (directory : String) (exclude : List String)
    (verbose : Bool) (algo : String) (t : FSTree) (hh : hashlibNew algo = none) :
    cliMain directory (some t) exclude verbose algo = Except.error CliError.invalidChoice ∧
    generate_fingerprint directory (some t) exclude verbose algo =
      ((enumFiles t).flatMap (unsupportedLogsOf directory exclude verbose),
       Except.error FatalError.unsupportedAlgorithm) := by
  constructor
  · simp [cliMain, algorithms_available, hh]
  · exact run_unsupported directory exclude verbose algo t hh

theorem c5_witness :
    cliMain "root" (some treeOneFile) [] false "sha999" =
      Except.error CliError.invalidChoice ∧
    generate_fingerprint "root" (some treeOneFile) [] false "sha999" =
      ((enumFiles treeOneFile).flatMap (unsupportedLogsOf "root" [] false),
       Except.error FatalError.unsupportedAlgorithm) :=
  c5_unsupported_algorithm "root" [] false "sha999" treeOneFile rfl

/-- C6: a run over a root with zero enumerated regular files succeeds with
an empty `file_hashes.txt` and a combined digest equal to the selected
algorithm's digest of the empty byte string. -/
theorem c6_empty_directory (directory : String) (exclude : List String) (verbose : Bool)
    (algo : String) (h : List Nat → String) (t : FSTree)
    (hh : hashlibNew algo = some h) (hempty : enumFiles t = []) :
    generate_fingerprint directory (some t) exclude verbose algo =
      ([], Except.ok
        { file_hashes_txt := "", project_fingerprint_txt := h [],
          fingerprint_json_records := [], fingerprint_json_combined := h [] }) := by
  rw [run_ok directory exclude verbose algo h t hh]
  simp only [artifactsOf, linesOf, metasOf, hempty, List.filter_nil, List.map_nil,
    List.flatMap_nil]
  rfl

theorem c6_witness :
    generate_fingerprint "root" (some treeEmpty) [] false "sha256" =
      ([], Except.ok
        { file_hashes_txt := "", project_fingerprint_txt := Sha256.hexdigest [],
          fingerprint_json_records := [], fingerprint_json_combined := Sha256.hexdigest [] }) :=
  c6_empty_directory "root" [] false "sha256" Sha256.hexdigest treeEmpty rfl rfl

theorem matchAnyExcl_nil (rel : String) : matchAnyExcl [] rel = false := rfl

/-- The round-trip snapshot with symbolic modification times. -/
def treeC7 (m1 m2 i1 i2 : String) : FSTree :=
  .node [⟨"a.txt", strBytes "hello", true, m1, i1⟩]
    (.dcons "sub" (.node [⟨"b.txt", strBytes "world", true, m2, i2⟩] .dnil) .dnil)

/-- The `file_hashes.txt` line for `a.txt` (correct SHA-256 of "hello"). -/
def lineC7a (m1 : String) : String :=
  "2cf24dba5fb0a30e26e83b2ac5b9e29e1b161e5c1fa7425e73043362938b9824  a.txt  5  " ++ m1

/-- The `file_hashes.txt` line for `sub/b.txt` (correct SHA-256 of "world"). -/
def lineC7b (m2 : String) : String :=
  "486ea46224d1bb4fb680f34f7c9ad96a8f24ec88be73ea8e5a6c65260e9cb8a7  sub/b.txt  5  " ++ m2

/-- C7: on a root with `a.txt` = "hello" and `sub/b.txt` = "world", no
exclusions, sha256: `file_hashes.txt` holds exactly the two lines in
relative-path order (`a.txt` first), each carrying the correct SHA-256 of
its content, and `project_fingerprint.txt` holds exactly the SHA-256 of
the joined two-line string, whatever the host reports as mtimes. -/
theorem c7_round_trip_scenario (m1 m2 i1 i2 : String) :
    (generate_fingerprint "root" (some (treeC7 m1 m2 i1 i2)) [] false "sha256").2 =
      Except.ok
        { file_hashes_txt := lineC7a m1 ++ "\n" ++ lineC7b m2,
          project_fingerprint_txt :=
            Sha256.hexdigest (strBytes (lineC7a m1 ++ "\n" ++ lineC7b m2)),
          fingerprint_json_records :=
            [{ file_path := "a.txt",
               hash := "2cf24dba5fb0a30e26e83b2ac5b9e29e1b161e5c1fa7425e73043362938b9824",
               size := 5, modified_time := i1 },
             { file_path := "sub/b.txt",
               hash := "486ea46224d1bb4fb680f34f7c9ad96a8f24ec88be73ea8e5a6c65260e9cb8a7",
               size := 5, modified_time := i2 }],
          fingerprint_json_combined :=
            Sha256.hexdigest (strBytes (lineC7a m1 ++ "\n" ++ lineC7b m2)) } := by
  have hhello : Sha256.hexdigest (strBytes "hello") =
      "2cf24dba5fb0a30e26e83b2ac5b9e29e1b161e5c1fa7425e73043362938b9824" := by decide
  have hworld : Sha256.hexdigest (strBytes "world") =
      "486ea46224d1bb4fb680f34f7c9ad96a8f24ec88be73ea8e5a6c65260e9cb8a7" := by decide
  have hlen1 : (strBytes "hello").length = 5 := by decide
  have hlen2 : (strBytes "world").length = 5 := by decide
  have henum : enumFiles (treeC7 m1 m2 i1 i2) =
      [("a.txt", ⟨"a.txt", strBytes "hello", true, m1, i1⟩),
       ("sub/b.txt", ⟨"b.txt", strBytes "world", true, m2, i2⟩)] := rfl
  have hlines : linesOf Sha256.hexdigest [] (treeC7 m1 m2 i1 i2) =
      [lineC7a m1, lineC7b m2] := by
    rw [linesOf, henum]
    simp only [List.filter_cons, List.filter_nil, matchAnyExcl_nil, Bool.not_false,
      Bool.true_and, List.map_cons, List.map_nil, lineOf, ite_true]
    rw [hhello, hworld, hlen1, hlen2]
    rfl
  have hmetas : metasOf Sha256.hexdigest [] (treeC7 m1 m2 i1 i2) =
      [{ file_path := "a.txt",
         hash := "2cf24dba5fb0a30e26e83b2ac5b9e29e1b161e5c1fa7425e73043362938b9824",
         size := 5, modified_time := i1 },
       { file_path := "sub/b.txt",
         hash := "486ea46224d1bb4fb680f34f7c9ad96a8f24ec88be73ea8e5a6c65260e9cb8a7",
         size := 5, modified_time := i2 }] := by
    rw [metasOf, henum]
    simp only [List.filter_cons, List.filter_nil, matchAnyExcl_nil, Bool.not_false,
      Bool.true_and, List.map_cons, List.map_nil, metaOf, ite_true]
    rw [hhello, hworld, hlen1, hlen2]
  rw [run_ok "root" [] false "sha256" Sha256.hexdigest (treeC7 m1 m2 i1 i2) rfl]
  simp only [artifactsOf, hlines, hmetas]
  rfl

/-- C8: for every content, `hash_file` returns the hex digest of the exact
byte content; sha256 digests have 64 lowercase-hex characters and sha1
digests 40; and because their lengths differ, the combined digests a run
writes under sha1 and sha256 always differ. -/
theorem c8_hash_file_contract :
    (∀ content : List Nat,
      hash_file content "sha256" = some (Sha256.hexdigest content) ∧
      hash_file content "sha1" = some (Sha1.hexdigest content) ∧
      (Sha256.hexdigest content).length = 64 ∧
      (Sha1.hexdigest content).length = 40 ∧
      (Sha256.hexdigest content).data.all isHexDigitChar = true ∧
      (Sha1.hexdigest content).data.all isHexDigitChar = true) ∧
    (∀ (directory : String) (t : FSTree) (exclude : List String) (verbose : Bool)
        (o1 o2 : Artifacts),
      (generate_fingerprint directory (some t) exclude verbose "sha1").2 = Except.ok o1 →
      (generate_fingerprint directory (some t) exclude verbose "sha256").2 = Except.ok o2 →
      o1.project_fingerprint_txt ≠ o2.project_fingerprint_txt) := by
  constructor
  · intro content
    exact ⟨hash_file_some content "sha256" Sha256.hexdigest rfl,
           hash_file_some content "sha1" Sha1.hexdigest rfl,
           sha256_hexdigest_length content,
           sha1_hexdigest_length content,
           bytesToHex_all_hex _ (sha256_hashBytes_lt content),
           bytesToHex_all_hex _ (sha1_hashBytes_lt content)⟩
  · intro directory t exclude verbose o1 o2 h1 h2
    rw [run_ok directory exclude verbose "sha1" Sha1.hexdigest t rfl] at h1
    rw [run_ok directory exclude verbose "sha256" Sha256.hexdigest t rfl] at h2
    have e1 : o1 = artifactsOf Sha1.hexdigest exclude t := by
      exact (Except.ok.inj h1).symm
    have e2 : o2 = artifactsOf Sha256.hexdigest exclude t := by
      exact (Except.ok.inj h2).symm
    subst e1
    subst e2
    intro hcontra
    have hlen := congrArg String.length hcontra
    rw [show (artifactsOf Sha1.hexdigest exclude t).project_fingerprint_txt =
          Sha1.hexdigest (strBytes (String.intercalate "\n" (linesOf Sha1.hexdigest exclude t)))
        from rfl,
        show (artifactsOf Sha256.hexdigest exclude t).project_fingerprint_txt =
          Sha256.hexdigest (strBytes (String.intercalate "\n" (linesOf Sha256.hexdigest exclude t)))
        from rfl,
        sha1_hexdigest_length, sha256_hexdigest_length] at hlen
    omega

theorem c8_witness :
    (artifactsOf Sha1.hexdigest [] treeEmpty).project_fingerprint_txt ≠
      (artifactsOf Sha256.hexdigest [] treeEmpty).project_fingerprint_txt :=
  c8_hash_file_contract.2 "root" treeEmpty [] false
    (artifactsOf Sha1.hexdigest [] treeEmpty) (artifactsOf Sha256.hexdigest [] treeEmpty)
    (by decide) (by decide)

/-- C9: the digest written to `project_fingerprint.txt` is the digest of
exactly the byte content written to `file_hashes.txt`, so re-hashing
`file_hashes.txt` with the same algorithm reproduces it. -/
theorem c9_fingerprint_rehash (directory : String) (exclude : List String)
    (verbose : Bool) (algo : String) (h : List Nat → String) (t : FSTree)
    (out : Artifacts) (hh : hashlibNew algo = some h)
    (ho : (generate_fingerprint directory (some t) exclude verbose algo).2 = Except.ok out) :
    out.project_fingerprint_txt = h (strBytes out.file_hashes_txt) := by
  rw [run_ok directory exclude verbose algo h t hh] at ho
  have e : out = artifactsOf h exclude t := (Except.ok.inj ho).symm
  subst e
  rfl

theorem c9_witness :
    (artifactsOf Sha256.hexdigest [] treeRoundTrip).project_fingerprint_txt =
      Sha256.hexdigest
        (strBytes (artifactsOf Sha256.hexdigest [] treeRoundTrip).file_hashes_txt) :=
  c9_fingerprint_rehash "root" [] false "sha256" Sha256.hexdigest treeRoundTrip
    (artifactsOf Sha256.hexdigest [] treeRoundTrip) rfl (by decide)

/-- C10: `hash_file`'s bounded 8192-byte chunked feeding of the content to
the hasher yields the same digest as feeding the entire content in one
update, for every content and algorithm identifier. -/
theorem c10_chunking_invariance (content : List Nat) (algo : String) :
    hash_file content algo = singleUpdateHash content algo := by
  unfold hash_file singleUpdateHash
  cases hh : hashlibNew algo with
  | none => rfl
  | some hasher => rw [chunkList_reassemble]
